import Mathlib

/-!
Verification development for the mini_chain proof-of-work blockchain node.

The Go sources are shallowly embedded: pure functions become Lean
functions, the mutable node state (chain, UTXO set, mempool) is threaded
explicitly, machine integers become Int or Nat with explicit reductions
modulo 2 ^ 32 or 2 ^ 64 where Go wraps, and fallible code returns Except.
Go strings that reach the hash functions are ASCII, so a string is
serialised to bytes as the list of code points of its characters.
-/

namespace MiniChain

/-- Reduce a natural number to a 32-bit word, as Go uint32 arithmetic does. -/
def w32 (n : Nat) : Nat := n % 4294967296

/-- Big-endian interpretation of a byte list as a natural number, the
behaviour of Go big.Int SetBytes. -/
def bytesToNat (l : List Nat) : Nat := l.foldl (fun a b => a * 256 + b) 0

/-- Lowercase hexadecimal digit for a value below 16, as Go fmt %x and
encoding/hex produce. -/
def hexDigit (n : Nat) : Char := "0123456789abcdef".data.getD n '*'

/-- The two lowercase hex characters of one byte. -/
def byteChars (b : Nat) : List Char := [hexDigit (b / 16), hexDigit (b % 16)]

/-- Hex rendering of a byte list as characters, two digits per byte. -/
def bytesHexChars : List Nat → List Char
  | [] => []
  | b :: t => hexDigit (b / 16) :: hexDigit (b % 16) :: bytesHexChars t

/-- Hex rendering of a byte list as a string, the behaviour of Go
hex.EncodeToString and of fmt.Sprintf with the x verb on a byte array. -/
def hexOfBytes (l : List Nat) : String := String.mk (bytesHexChars l)

/-- Bytes of an ASCII Go string: code point of each character. -/
def strBytes (s : String) : List Nat := s.data.map Char.toNat

/-- Model of Go strings.Repeat applied to the single character 0,
as used to build the difficulty target of the proof-of-work checks. -/
def goRepeatZero (d : Nat) : String := String.mk (List.replicate d '0')

/-- Model of Go strings.HasPrefix: the second string is a prefix
of the first. -/
def goStartsWith (s p : String) : Bool := p.data.isPrefixOf s.data

/- ===== SHA-256 (crypto/sha256), executable model ===== -/

/-- Right rotation of a 32-bit word by n bits. -/
def rotr (n x : Nat) : Nat := w32 ((x >>> n) ||| (x <<< (32 - n)))

/-- SHA-256 Ch function. -/
def shaCh (x y z : Nat) : Nat := (x &&& y) ^^^ ((x ^^^ 4294967295) &&& z)

/-- SHA-256 Maj function. -/
def shaMaj (x y z : Nat) : Nat := (x &&& y) ^^^ (x &&& z) ^^^ (y &&& z)

/-- SHA-256 big Sigma 0. -/
def bigS0 (x : Nat) : Nat := rotr 2 x ^^^ rotr 13 x ^^^ rotr 22 x

/-- SHA-256 big Sigma 1. -/
def bigS1 (x : Nat) : Nat := rotr 6 x ^^^ rotr 11 x ^^^ rotr 25 x

/-- SHA-256 small sigma 0. -/
def smallS0 (x : Nat) : Nat := rotr 7 x ^^^ rotr 18 x ^^^ (x >>> 3)

/-- SHA-256 small sigma 1. -/
def smallS1 (x : Nat) : Nat := rotr 17 x ^^^ rotr 19 x ^^^ (x >>> 10)

/-- The 64 SHA-256 round constants of FIPS 180-4, in decimal. -/
def shaK : List Nat :=
  [1116352408, 1899447441, 3049323471, 3921009573, 961987163, 1508970993,
   2453635748, 2870763221, 3624381080, 310598401, 607225278, 1426881987,
   1925078388, 2162078206, 2614888103, 3248222580, 3835390401, 4022224774,
   264347078, 604807628, 770255983, 1249150122, 1555081692, 1996064986,
   2554220882, 2821834349, 2952996808, 3210313671, 3336571891, 3584528711,
   113926993, 338241895, 666307205, 773529912, 1294757372, 1396182291,
   1695183700, 1986661051, 2177026350, 2456956037, 2730485921, 2820302411,
   3259730800, 3345764771, 3516065817, 3600352804, 4094571909, 275423344,
   430227734, 506948616, 659060556, 883997877, 958139571, 1322822218,
   1537002063, 1747873779, 1955562222, 2024104815, 2227730452, 2361852424,
   2428436474, 2756734187, 3204031479, 3329325298]

/-- The eight working variables of the SHA-256 compression function. -/
structure Words8 where
  a : Nat
  b : Nat
  c : Nat
  d : Nat
  e : Nat
  f : Nat
  g : Nat
  h : Nat
deriving DecidableEq, Repr

/-- SHA-256 initial hash value of FIPS 180-4, in decimal. -/
def shaH0 : Words8 :=
  ⟨1779033703, 3144134277, 1013904242, 2773480762,
   1359893119, 2600822924, 528734635, 1541459225⟩

/-- Eight bytes of the big-endian 64-bit message length, in bits. -/
def lenBytes (n : Nat) : List Nat :=
  [n / 2 ^ 56 % 256, n / 2 ^ 48 % 256, n / 2 ^ 40 % 256, n / 2 ^ 32 % 256,
   n / 2 ^ 24 % 256, n / 2 ^ 16 % 256, n / 2 ^ 8 % 256, n % 256]

/-- SHA-256 padding: a 0x80 byte, zeros up to 56 mod 64, then the
bit length as eight big-endian bytes. -/
def padMsg (m : List Nat) : List Nat :=
  m ++ [128] ++ List.replicate ((119 - m.length % 64) % 64) 0 ++ lenBytes ((8 * m.length) % 2 ^ 64)

/-- Helper for chunking: the first argument is fuel bounding the number
of chunks, structurally decreasing so the kernel can evaluate it. -/
def toBlocksAux : Nat → List Nat → List (List Nat)
  | 0, _ => []
  | _ + 1, [] => []
  | n + 1, b :: t => List.take 64 (b :: t) :: toBlocksAux n (List.drop 64 (b :: t))

/-- Split a byte list into 64-byte chunks (the input length is a
multiple of 64 after padding, and each chunk consumes 64 bytes, so the
length itself is enough fuel). -/
def toBlocks (l : List Nat) : List (List Nat) := toBlocksAux l.length l

/-- Group bytes four at a time into big-endian 32-bit words. -/
def bytesToWords : List Nat → List Nat
  | b0 :: b1 :: b2 :: b3 :: t => (((b0 * 256 + b1) * 256 + b2) * 256 + b3) :: bytesToWords t
  | _ => []

/-- One extension step of the SHA-256 message schedule. -/
def schedStep (w : List Nat) : List Nat :=
  let n := w.length
  w ++ [w32 (smallS1 (w.getD (n - 2) 0) + w.getD (n - 7) 0 + smallS0 (w.getD (n - 15) 0) + w.getD (n - 16) 0)]

/-- The full 64-word SHA-256 message schedule from the 16 chunk words. -/
def schedule (ws : List Nat) : List Nat :=
  (List.range 48).foldl (fun w _ => schedStep w) ws

/-- One SHA-256 compression round. -/
def roundStep (s : Words8) (kw : Nat × Nat) : Words8 :=
  let t1 := w32 (s.h + bigS1 s.e + shaCh s.e s.f s.g + kw.1 + kw.2)
  let t2 := w32 (bigS0 s.a + shaMaj s.a s.b s.c)
  ⟨w32 (t1 + t2), s.a, s.b, s.c, w32 (s.d + t1), s.e, s.f, s.g⟩

/-- Compress one 64-byte chunk into the running hash state. -/
def compress (hs : Words8) (chunk : List Nat) : Words8 :=
  let fs := (List.zip shaK (schedule (bytesToWords chunk))).foldl roundStep hs
  ⟨w32 (hs.a + fs.a), w32 (hs.b + fs.b), w32 (hs.c + fs.c), w32 (hs.d + fs.d),
   w32 (hs.e + fs.e), w32 (hs.f + fs.f), w32 (hs.g + fs.g), w32 (hs.h + fs.h)⟩

/-- Four big-endian bytes of a 32-bit word. -/
def wordBytes (w : Nat) : List Nat := [w / 2 ^ 24 % 256, w / 2 ^ 16 % 256, w / 2 ^ 8 % 256, w % 256]

/-- The 32 output bytes of a final SHA-256 state. -/
def outBytes (s : Words8) : List Nat :=
  wordBytes s.a ++ wordBytes s.b ++ wordBytes s.c ++ wordBytes s.d ++
  wordBytes s.e ++ wordBytes s.f ++ wordBytes s.g ++ wordBytes s.h

/-- SHA-256 digest (32 bytes) of a byte list. -/
def sha256 (m : List Nat) : List Nat :=
  outBytes ((toBlocks (padMsg m)).foldl compress shaH0)

/-- Lowercase hex SHA-256 digest of an ASCII string, the composite the Go
code computes with sha256.Sum256 followed by hex rendering. -/
def shaHex (s : String) : String := hexOfBytes (sha256 (strBytes s))

set_option maxRecDepth 100000

example : shaHex "abc" = "ba7816bf8f01cfea414140de5dae2223b00361a396177a9cb410ff61f20015ad" := by decide

example : shaHex "" = "e3b0c44298fc1c149afbf4c8996fb92427ae41e4649b934ca495991b7852b855" := by decide

/- ===== internal/blockchain: Block and hashing (block.go) ===== -/

/-- Block of package blockchain: transactions are referenced by txid
strings. Index is a Go int, Timestamp and Nonce Go int64. -/
structure Block where
  Index : Int
  Timestamp : Int
  Transactions : List String
  PrevHash : String
  Nonce : Int
  Hash : String
deriving DecidableEq, Repr

/-- Model of Go sort.Strings: ascending lexicographic sort. -/
def sortStrings (l : List String) : List String := List.insertionSort (· ≤ ·) l

/-- The header part of the calcHash input buffer, shared by both block.go
variants: Index, Timestamp, PrevHash, Nonce separated by vertical bars. -/
def headerSerial (b : Block) : String :=
  toString b.Index ++ "|" ++ toString b.Timestamp ++ "|" ++ b.PrevHash ++ "|" ++ toString b.Nonce ++ "|"

/-- calcHash of the block.go variant that sorts the transaction ids
before hashing and terminates each one with a semicolon. -/
def calcHash (b : Block) : String :=
  shaHex (headerSerial b ++ (sortStrings b.Transactions).foldl (fun acc t => acc ++ t ++ ";") "")

/-- calcHash of the other block.go variant, which joins the transaction
ids with commas in their stored order, without sorting. -/
def calcHashJoin (b : Block) : String :=
  shaHex (headerSerial b ++ String.intercalate "," b.Transactions)

/-- NewGenesis: Index 0, PrevHash the sentinel "0", no transactions,
Nonce 0, Hash computed at construction. The Go code reads the wall clock
with time.Now().Unix(); the clock value is the explicit argument now. -/
def newGenesis (now : Int) : Block :=
  let g : Block := ⟨0, now, [], "0", 0, ""⟩
  { g with Hash := calcHash g }

/-- ValidateBasic: the stored Hash equals the recomputed header hash. -/
def validateBasic (b : Block) : Bool := calcHash b == b.Hash

/- ===== internal/blockchain: proof of work (pow.go) ===== -/

/-- The trial loop of MineBlock in pow.go: recompute the hash, stop when
it starts with the zero prefix, otherwise increment the nonce. The Go
loop is unbounded; fuel bounds the number of attempts so the function is
total, returning none when fuel runs out. -/
def mineLoop (pfx : String) : Nat → Block → Option Block
  | 0, _ => none
  | fuel + 1, b =>
    let h := calcHash b
    if goStartsWith h pfx then some { b with Hash := h }
    else mineLoop pfx fuel { b with Nonce := b.Nonce + 1 }

/-- MineBlock of pow.go: build the candidate over prev (the clock value
is the explicit argument now) and search nonces 0, 1, 2, ... for a hash
with difficulty leading zero hex characters. -/
def mineBlock (prev : Block) (txids : List String) (difficulty : Nat) (now : Int) (fuel : Nat) : Option Block :=
  mineLoop (goRepeatZero difficulty) fuel ⟨prev.Index + 1, now, txids, prev.Hash, 0, ""⟩

/-- CheckPoW of pow.go: header integrity (ValidateBasic) plus the
leading-zero test on the stored Hash. -/
def checkPoW (b : Block) (difficulty : Nat) : Bool :=
  validateBasic b && goStartsWith b.Hash (goRepeatZero difficulty)

/- ===== internal/blockchain: big-integer proof of work (variant pow.go) ===== -/

/-- The numeric proof-of-work target of NewProofOfWork: one shifted left
by 256 - difficulty*4 bits. Valid for difficulty at most 64, where the Go
int subtraction 256 - 4*difficulty is nonnegative. -/
def powTarget (difficulty : Nat) : Nat := 2 ^ (256 - 4 * difficulty)

/-- prepareData of the ProofOfWork variant: Index, Timestamp, PrevHash,
the transaction ids joined with the empty separator, then the nonce,
all concatenated with no separators (fmt.Sprintf with d and s verbs). -/
def prepareData (b : Block) (nonce : Int) : String :=
  toString b.Index ++ toString b.Timestamp ++ b.PrevHash ++ String.join b.Transactions ++ toString nonce

/-- ProofOfWork.Run: try nonces 0, 1, 2, ... until the digest of
prepareData, read as a 256-bit big-endian integer, is below the target.
Fuel bounds the unbounded Go loop. -/
def powRun (b : Block) (difficulty : Nat) : Nat → Int → Option (Int × List Nat)
  | 0, _ => none
  | fuel + 1, nonce =>
    let hash := sha256 (strBytes (prepareData b nonce))
    if bytesToNat hash < powTarget difficulty then some (nonce, hash)
    else powRun b difficulty fuel (nonce + 1)

/-- ProofOfWork.Validate: recompute the digest from the block fields and
stored Nonce and compare against the numeric target. -/
def powValidate (b : Block) (difficulty : Nat) : Bool :=
  bytesToNat (sha256 (strBytes (prepareData b b.Nonce))) < powTarget difficulty

/-- MineBlock of the ProofOfWork variant: run the numeric search and
store the found nonce and the hex digest in the block. -/
def mineBlockPow (prev : Block) (txids : List String) (difficulty : Nat) (now : Int) (fuel : Nat) : Option Block :=
  let b : Block := ⟨prev.Index + 1, now, txids, prev.Hash, 0, ""⟩
  match powRun b difficulty fuel 0 with
  | some (n, hash) => some { b with Nonce := n, Hash := hexOfBytes hash }
  | none => none

/- ===== internal/blockchain: mempool (mempool.go) ===== -/

/-- AddToMempool: append the txid unless it is already present. -/
def addToMempool (pool : List String) (txid : String) : List String :=
  if pool.contains txid then pool else pool ++ [txid]

/-- RemoveFromMempool: keep exactly the entries that match none of the
given txids. -/
def removeFromMempool (pool txids : List String) : List String :=
  pool.filter (fun e => ! txids.contains e)

/- ===== internal/blockchain: UTXO set (utxo.go) ===== -/

/-- Key of the UTXO map: transaction id and output index. -/
structure UTXOKey where
  Txid : String
  Vout : Int
deriving DecidableEq, Repr

/-- Value of the UTXO map: destination address and amount. -/
structure UTXOEntry where
  Address : String
  Amount : Int
deriving DecidableEq, Repr

/-- The in-memory UTXO map (Go map keyed by UTXOKey). -/
abbrev UTXOMap := UTXOKey → Option UTXOEntry

/-- The empty UTXO set. -/
def emptyUTXOs : UTXOMap := fun _ => none

/-- GetUTXO: entry lookup, with the utxo-not-found error of the Go code
on a miss. Reading does not change the map. -/
def getUTXO (m : UTXOMap) (txid : String) (vout : Int) : Except String UTXOEntry :=
  match m ⟨txid, vout⟩ with
  | some e => Except.ok e
  | none => Except.error ("utxo not found " ++ txid ++ ":" ++ toString vout)

/-- PutUTXO: insert or overwrite the entry at (txid, vout). -/
def putUTXO (m : UTXOMap) (txid : String) (vout : Int) (entry : UTXOEntry) : UTXOMap :=
  fun k => if k = ⟨txid, vout⟩ then some entry else m k

/-- DeleteUTXO: remove the entry at (txid, vout). -/
def deleteUTXO (m : UTXOMap) (txid : String) (vout : Int) : UTXOMap :=
  fun k => if k = ⟨txid, vout⟩ then none else m k

/-- validateRawTx as the repository ships it: a stub that reports
success for every txid without consulting the UTXO set. -/
def validateRawTx (txid : String) : Except String Unit := Except.ok ()

/-- The loop of ValidateAndApplyBlock step 4: validateRawTx over the
transaction list, stopping at the first error. -/
def validateTxList : List String → Except String Unit
  | [] => Except.ok ()
  | t :: ts =>
    match validateRawTx t with
    | Except.error e => Except.error e
    | Except.ok _ => validateTxList ts

/-- applyTxsInBlock as the repository ships it: a stub that leaves the
UTXO set unchanged and reports success. -/
def applyTxsInBlock (txids : List String) (m : UTXOMap) : Except String UTXOMap :=
  Except.ok m

/- ===== internal/blockchain: chain state (blockchain.go) ===== -/

/-- The mutable node state ValidateAndApplyBlock touches: the cached
latest block, the UTXO set and the mempool. -/
structure NodeState where
  latest : Block
  utxos : UTXOMap
  mempool : List String

/-- ValidateAndApplyBlock: header check, PoW check, tip linkage check,
per-transaction validation, UTXO application, then tip update and
mempool removal. The state is returned alongside the result; every
error branch returns it untouched, as the Go code returns before any
mutation. -/
def validateAndApplyBlock (difficulty : Nat) (st : NodeState) (b : Block) : Except String Unit × NodeState :=
  if ! validateBasic b then (Except.error "block header invalid", st)
  else if ! checkPoW b difficulty then (Except.error "block PoW invalid", st)
  else if b.PrevHash ≠ st.latest.Hash then (Except.error "block does not extend latest", st)
  else
    match validateTxList b.Transactions with
    | Except.error e => (Except.error e, st)
    | Except.ok _ =>
      match applyTxsInBlock b.Transactions st.utxos with
      | Except.error e => (Except.error e, st)
      | Except.ok u =>
        (Except.ok (), ⟨b, u, removeFromMempool st.mempool b.Transactions⟩)

/- ===== mini_chain.go and libp2p/main.go: the TCP and libp2p node
variants. Both define the same Transaction and Block types, the same
CalculateHash, InitGenesis, AddBlock and ReplaceChain. ===== -/

/-- Transaction of the node variants: a simple from/to/amount/signature
transfer. -/
structure Tx0 where
  From : String
  To : String
  Amount : Int
  Signature : String
deriving DecidableEq, Repr

/-- Block of the node variants: carries full transaction bodies. -/
structure Block0 where
  Index : Int
  Timestamp : Int
  Transactions : List Tx0
  PrevHash : String
  Nonce : Int
  Hash : String
deriving DecidableEq, Repr

/-- Escape one character the way Go encoding/json escapes string
characters (with the default HTML escaping of angle brackets and
ampersands). Characters above space are otherwise kept as is; the
repository feeds only ASCII through this path. -/
def jsonEscChar (c : Char) : List Char :=
  if c = '"' then ['\\', '"']
  else if c = '\\' then ['\\', '\\']
  else if c = '\n' then ['\\', 'n']
  else if c = '\r' then ['\\', 'r']
  else if c = '\t' then ['\\', 't']
  else if c = '<' then '\\' :: 'u' :: '0' :: '0' :: ['3', 'c']
  else if c = '>' then '\\' :: 'u' :: '0' :: '0' :: ['3', 'e']
  else if c = '&' then '\\' :: 'u' :: '0' :: '0' :: ['2', '6']
  else if c.toNat < 32 then '\\' :: 'u' :: '0' :: '0' :: [hexDigit (c.toNat / 16), hexDigit (c.toNat % 16)]
  else [c]

/-- A Go JSON string literal. -/
def jsonStr (s : String) : String :=
  "\"" ++ String.mk (List.flatten (s.data.map jsonEscChar)) ++ "\""

/-- json.Marshal of one Transaction, following the json field tags of
the Go struct. -/
def jsonTx (t : Tx0) : String :=
  "\x7b\"from\":" ++ jsonStr t.From ++ ",\"to\":" ++ jsonStr t.To ++
  ",\"amount\":" ++ toString t.Amount ++ ",\"signature\":" ++ jsonStr t.Signature ++ "\x7d"

/-- json.Marshal of a transaction slice. -/
def jsonTxs (l : List Tx0) : String :=
  "[" ++ String.intercalate "," (l.map jsonTx) ++ "]"

/-- CalculateHash of the node variants: Index, Timestamp, the JSON of
the transaction list, PrevHash and Nonce concatenated, then hashed. The
Hash field itself is not part of the input. -/
def calculateHash0 (b : Block0) : String :=
  shaHex (toString b.Index ++ toString b.Timestamp ++ jsonTxs b.Transactions ++ b.PrevHash ++ toString b.Nonce)

/-- InitGenesis: the genesis block of the node variants, Index 0,
PrevHash "0", no transactions, Nonce 0, hash computed at construction.
The Go code reads the wall clock; the clock value is the argument. -/
def initGenesis (now : Int) : Block0 :=
  let g : Block0 := ⟨0, now, [], "0", 0, ""⟩
  { g with Hash := calculateHash0 g }

/-- AddBlock: append the block to the chain when it links to the last
block, its stored hash is correct, and the hash has the required zero
run; otherwise report false and leave the chain as it was. The Go code
indexes blockchain[len-1]; callers keep the chain nonempty from genesis
on, and the default block covers the out-of-contract empty case. -/
def addBlock (difficulty : Nat) (chain : List Block0) (b : Block0) : Bool × List Block0 :=
  let last := chain.getLastD ⟨0, 0, [], "", 0, ""⟩
  if b.PrevHash ≠ last.Hash then (false, chain)
  else if calculateHash0 b ≠ b.Hash then (false, chain)
  else if ! goStartsWith b.Hash (goRepeatZero difficulty) then (false, chain)
  else (true, chain ++ [b])

/-- ReplaceChain of both node variants: adopt the candidate exactly when
it is strictly longer than the local chain; no other check is made. -/
def replaceChain (newChain chain : List Block0) : List Block0 :=
  if chain.length < newChain.length then newChain else chain

/- ===== Helpers for stating and witnessing the claims ===== -/

/-- True exactly on the error constructor of a block application result. -/
def isError : Except String Unit → Bool
  | Except.error _ => true
  | Except.ok _ => false

/-- validateRawTx never fails, so the step-4 loop always succeeds. -/
theorem validateTxList_ok (l : List String) : validateTxList l = Except.ok () := by
  induction l with
  | nil => rfl
  | cons t ts ih => simpa [validateTxList, validateRawTx] using ih

/-- A block of the node variants with no computed hash. -/
def tb0 : Block0 := ⟨0, 0, [], "0", 0, ""⟩

/-- A height-1 block whose stored hash is the arbitrary string aa. -/
def cA : Block0 := ⟨1, 0, [], "0", 0, "aa"⟩

/-- A block whose PrevHash zz does not match the hash aa of cA, so a
chain ending cA, cB has broken linkage. -/
def cB : Block0 := ⟨2, 0, [], "zz", 0, "bb"⟩

/-- A cached tip with stored hash h, for exercising the linkage check. -/
def tLatest : Block := ⟨0, 0, [], "0", 0, "h"⟩

/-- A block whose PrevHash x does not match the tip hash h. -/
def tBad : Block := ⟨1, 0, [], "x", 0, "y"⟩

/- ===== C1 ===== -/

/-- C1 counterexample: the candidate cA, cB is strictly longer than the
local chain tb0 but has broken linkage (cB.PrevHash differs from
cA.Hash), yet ReplaceChain adopts it, so an invalid candidate does not
leave the local chain unchanged. -/
theorem c1_counterexample :
    cB.PrevHash ≠ cA.Hash ∧
    replaceChain [cA, cB] [tb0] = [cA, cB] ∧
    replaceChain [cA, cB] [tb0] ≠ [tb0] := by
  refine ⟨by decide, by decide, by decide⟩

/-- C1 amended: ReplaceChain adopts the candidate iff it is strictly
longer than the local chain — validity is not inspected — and every
candidate of equal or smaller length leaves the local chain unchanged. -/
theorem c1_replaceChain_length_only (newChain chain : List Block0) :
    (chain.length < newChain.length → replaceChain newChain chain = newChain) ∧
    (newChain.length ≤ chain.length → replaceChain newChain chain = chain) := by
  unfold replaceChain
  constructor
  · intro h
    simp [h]
  · intro h
    simp [Nat.not_lt.mpr h]

/-- C1 witness: a longer candidate is adopted, an equal-length one is
not. -/
theorem c1_witness :
    replaceChain [cA, cB] [tb0] = [cA, cB] ∧ replaceChain [cB] [tb0] = [tb0] :=
  ⟨(c1_replaceChain_length_only [cA, cB] [tb0]).1 (by decide),
   (c1_replaceChain_length_only [cB] [tb0]).2 (by decide)⟩

/- ===== C3 ===== -/

/-- C3: a block that does not extend the cached tip is rejected by
ValidateAndApplyBlock, every rejection leaves the whole node state
untouched, and likewise AddBlock of the node variants answers false on a
linkage mismatch and leaves the chain untouched on every false answer. -/
theorem c3_extend_rejects_and_preserves (difficulty : Nat) (st : NodeState) (b : Block)
    (chain : List Block0) (b0 : Block0) :
    (b.PrevHash ≠ st.latest.Hash → isError (validateAndApplyBlock difficulty st b).1 = true) ∧
    (isError (validateAndApplyBlock difficulty st b).1 = true →
      (validateAndApplyBlock difficulty st b).2 = st) ∧
    (chain ≠ [] → b0.PrevHash ≠ (chain.getLastD ⟨0, 0, [], "", 0, ""⟩).Hash →
      (addBlock difficulty chain b0).1 = false) ∧
    ((addBlock difficulty chain b0).1 = false → (addBlock difficulty chain b0).2 = chain) := by
  refine ⟨?_, ?_, ?_, ?_⟩
  · intro hne
    unfold validateAndApplyBlock
    by_cases h1 : (! validateBasic b) = true
    · rw [if_pos h1]; rfl
    · rw [if_neg h1]
      by_cases h2 : (! checkPoW b difficulty) = true
      · rw [if_pos h2]; rfl
      · rw [if_neg h2, if_pos hne]; rfl
  · intro herr
    unfold validateAndApplyBlock at herr ⊢
    by_cases h1 : (! validateBasic b) = true
    · rw [if_pos h1]
    · rw [if_neg h1] at herr ⊢
      by_cases h2 : (! checkPoW b difficulty) = true
      · rw [if_pos h2]
      · rw [if_neg h2] at herr ⊢
        by_cases h3 : b.PrevHash ≠ st.latest.Hash
        · rw [if_pos h3]
        · rw [if_neg h3] at herr ⊢
          rw [validateTxList_ok] at herr
          simp [applyTxsInBlock, isError] at herr
  · intro _ hne
    unfold addBlock
    rw [if_pos hne]
  · intro hfalse
    unfold addBlock at hfalse ⊢
    by_cases h1 : b0.PrevHash ≠ (chain.getLastD ⟨0, 0, [], "", 0, ""⟩).Hash
    · rw [if_pos h1]
    · rw [if_neg h1] at hfalse ⊢
      by_cases h2 : calculateHash0 b0 ≠ b0.Hash
      · rw [if_pos h2]
      · rw [if_neg h2] at hfalse ⊢
        by_cases h3 : (! goStartsWith b0.Hash (goRepeatZero difficulty)) = true
        · rw [if_pos h3]
        · rw [if_neg h3] at hfalse
          simp at hfalse

/-- C3 witness: concrete mismatching blocks are rejected with no state
change. -/
theorem c3_witness :
    isError (validateAndApplyBlock 0 ⟨tLatest, emptyUTXOs, []⟩ tBad).1 = true ∧
    (validateAndApplyBlock 0 ⟨tLatest, emptyUTXOs, []⟩ tBad).2 = ⟨tLatest, emptyUTXOs, []⟩ ∧
    (addBlock 0 [cA] cB).1 = false ∧
    (addBlock 0 [cA] cB).2 = [cA] :=
  ⟨(c3_extend_rejects_and_preserves 0 ⟨tLatest, emptyUTXOs, []⟩ tBad [cA] cB).1 (by decide),
   (c3_extend_rejects_and_preserves 0 ⟨tLatest, emptyUTXOs, []⟩ tBad [cA] cB).2.1
     ((c3_extend_rejects_and_preserves 0 ⟨tLatest, emptyUTXOs, []⟩ tBad [cA] cB).1 (by decide)),
   (c3_extend_rejects_and_preserves 0 ⟨tLatest, emptyUTXOs, []⟩ tBad [cA] cB).2.2.1 (by decide) (by decide),
   (c3_extend_rejects_and_preserves 0 ⟨tLatest, emptyUTXOs, []⟩ tBad [cA] cB).2.2.2
     ((c3_extend_rejects_and_preserves 0 ⟨tLatest, emptyUTXOs, []⟩ tBad [cA] cB).2.2.1 (by decide) (by decide))⟩

/- ===== C8 ===== -/

/-- C8: fork-choice never shrinks the chain, and an equal-length
candidate leaves the local chain unchanged. -/
theorem c8_forkChoice_monotone (newChain chain : List Block0) :
    chain.length ≤ (replaceChain newChain chain).length ∧
    (newChain.length = chain.length → replaceChain newChain chain = chain) := by
  unfold replaceChain
  constructor
  · split
    · omega
    · exact Nat.le_refl _
  · intro h
    simp [h]

/-- C8 witness: an equal-length candidate is a no-op and length never
drops. -/
theorem c8_witness :
    [tb0].length ≤ (replaceChain [cB] [tb0]).length ∧ replaceChain [cB] [tb0] = [tb0] :=
  ⟨(c8_forkChoice_monotone [cB] [tb0]).1, (c8_forkChoice_monotone [cB] [tb0]).2 (by decide)⟩

/- ===== C9 ===== -/

/-- C9: adding a txid that is already pooled changes nothing, removal
keeps exactly the entries outside the given id set, and removing absent
ids changes nothing. -/
theorem c9_mempool_idempotent (pool : List String) (t : String) (s : List String) :
    (t ∈ pool → addToMempool pool t = pool) ∧
    removeFromMempool pool s = pool.filter (fun e => decide (e ∉ s)) ∧
    ((∀ x ∈ s, x ∉ pool) → removeFromMempool pool s = pool) := by
  refine ⟨?_, ?_, ?_⟩
  · intro hmem
    simp [addToMempool, hmem]
  · simp [removeFromMempool]
  · intro habs
    rw [removeFromMempool, List.filter_eq_self]
    intro e he
    simp only [Bool.not_eq_eq_eq_not, Bool.not_true, List.contains, List.elem_eq_mem,
      decide_eq_false_iff_not]
    intro hes
    exact habs e hes he

/-- C9 witness: re-adding a pooled id and removing an absent id are both
no-ops on a concrete pool. -/
theorem c9_witness :
    addToMempool ["t1"] "t1" = ["t1"] ∧ removeFromMempool ["t1"] ["t2"] = ["t1"] :=
  ⟨(c9_mempool_idempotent ["t1"] "t1" ["t2"]).1 (by decide),
   (c9_mempool_idempotent ["t1"] "t1" ["t2"]).2.2 (by decide)⟩

/- ===== C10 ===== -/

/-- C10: UTXO point operations satisfy the map laws: get after put finds
the entry, get after delete reports the utxo-not-found error, and both
put and delete leave all other keys untouched. -/
theorem c10_utxo_map_laws (m : UTXOMap) (t : String) (v : Int) (e : UTXOEntry) :
    getUTXO (putUTXO m t v e) t v = Except.ok e ∧
    getUTXO (deleteUTXO m t v) t v = Except.error ("utxo not found " ++ t ++ ":" ++ toString v) ∧
    (∀ t2 v2, ¬(t2 = t ∧ v2 = v) →
      putUTXO m t v e ⟨t2, v2⟩ = m ⟨t2, v2⟩ ∧ deleteUTXO m t v ⟨t2, v2⟩ = m ⟨t2, v2⟩) := by
  refine ⟨?_, ?_, ?_⟩
  · simp [getUTXO, putUTXO]
  · simp [getUTXO, deleteUTXO]
  · intro t2 v2 hne
    constructor
    · simp [putUTXO, UTXOKey.mk.injEq, hne]
    · simp [deleteUTXO, UTXOKey.mk.injEq, hne]

/-- C10 witness: the laws at concrete keys and entries. -/
theorem c10_witness :
    getUTXO (putUTXO emptyUTXOs "a" 0 ⟨"addr", 5⟩) "a" 0 = Except.ok ⟨"addr", 5⟩ ∧
    getUTXO (deleteUTXO emptyUTXOs "a" 0) "a" 0 = Except.error "utxo not found a:0" ∧
    putUTXO emptyUTXOs "a" 0 ⟨"addr", 5⟩ ⟨"b", 1⟩ = emptyUTXOs ⟨"b", 1⟩ :=
  ⟨(c10_utxo_map_laws emptyUTXOs "a" 0 ⟨"addr", 5⟩).1,
   (c10_utxo_map_laws emptyUTXOs "a" 0 ⟨"addr", 5⟩).2.1,
   ((c10_utxo_map_laws emptyUTXOs "a" 0 ⟨"addr", 5⟩).2.2 "b" 1 (by decide)).1⟩

/- ===== C2 ===== -/

/-- A block over the genesis tip that references a transaction id whose
inputs cannot be satisfied: the UTXO set is empty, so every referenced
output is missing. Its header hash and PoW (difficulty 0) are valid. -/
def spendBlock : Block :=
  let b : Block := ⟨1, 1, ["aa11"], (newGenesis 0).Hash, 0, ""⟩
  { b with Hash := calcHash b }

/-- C2: the shipped validateRawTx accepts every txid without consulting
the UTXO set, so ValidateAndApplyBlock accepts a block that spends from
an empty UTXO set instead of rejecting it; the UTXO set is left
unchanged only because the shipped applyTxsInBlock is also a stub. -/
theorem c2_missing_input_not_rejected :
    validateRawTx "aa11" = Except.ok () ∧
    getUTXO emptyUTXOs "aa11" 0 = Except.error "utxo not found aa11:0" ∧
    (validateAndApplyBlock 0 ⟨newGenesis 0, emptyUTXOs, []⟩ spendBlock).1 = Except.ok () ∧
    (validateAndApplyBlock 0 ⟨newGenesis 0, emptyUTXOs, []⟩ spendBlock).2.utxos = emptyUTXOs := by
  refine ⟨rfl, rfl, by rfl, rfl⟩

/- ===== C7 ===== -/

/-- C7: genesis construction is not deterministic: NewGenesis and
InitGenesis read the wall clock, so two invocations at different clock
values produce blocks that differ in Timestamp and in Hash, although
the fixed fields match the claim. -/
theorem c7_genesis_not_deterministic :
    (newGenesis 100).Index = 0 ∧ (newGenesis 100).PrevHash = "0" ∧
    (newGenesis 100).Transactions = [] ∧ (newGenesis 100).Nonce = 0 ∧
    (newGenesis 100).Timestamp ≠ (newGenesis 200).Timestamp ∧
    (newGenesis 100).Hash ≠ (newGenesis 200).Hash ∧
    (initGenesis 100).Timestamp ≠ (initGenesis 200).Timestamp ∧
    (initGenesis 100).Hash ≠ (initGenesis 200).Hash := by
  refine ⟨rfl, rfl, rfl, rfl, by decide, by decide, by decide, by decide⟩

/- ===== C4 ===== -/

/-- Structure of the pow.go mining loop: every block it returns carries
the zero run demanded by the search, a Hash field that is exactly the
recomputed header hash, and the Index and PrevHash of the candidate it
started from. -/
theorem mineLoop_spec (pfx : String) :
    ∀ fuel b bm, mineLoop pfx fuel b = some bm →
      goStartsWith bm.Hash pfx = true ∧ calcHash bm = bm.Hash ∧
      bm.Index = b.Index ∧ bm.PrevHash = b.PrevHash := by
  intro fuel
  induction fuel with
  | zero => intro b bm h; exact absurd h (by simp [mineLoop])
  | succ n ih =>
    intro b bm h
    unfold mineLoop at h
    by_cases hp : goStartsWith (calcHash b) pfx = true
    · rw [if_pos hp] at h
      obtain rfl : { b with Hash := calcHash b } = bm := Option.some.inj h
      exact ⟨hp, rfl, rfl, rfl⟩
    · rw [if_neg hp] at h
      exact ih { b with Nonce := b.Nonce + 1 } bm h

/-- C4 amended, proved for MineBlock of pow.go: every block it returns
starts with the demanded zero run, stores exactly its recomputed header
hash (so ValidateBasic holds), sits at height prev.Index + 1 and links
to prev.Hash. -/
theorem c4_mineBlock_spec (prev : Block) (txids : List String) (difficulty : Nat)
    (now : Int) (fuel : Nat) (bm : Block)
    (h : mineBlock prev txids difficulty now fuel = some bm) :
    goStartsWith bm.Hash (goRepeatZero difficulty) = true ∧
    calcHash bm = bm.Hash ∧ validateBasic bm = true ∧
    bm.Index = prev.Index + 1 ∧ bm.PrevHash = prev.Hash := by
  obtain ⟨h1, h2, h3, h4⟩ := mineLoop_spec (goRepeatZero difficulty) fuel _ bm h
  exact ⟨h1, h2, by simp [validateBasic, h2], h3, h4⟩

/-- The block pow.go MineBlock finds over genesis at difficulty 0. -/
def cMined : Block := (mineBlock (newGenesis 0) [] 0 5 1).getD tLatest

/-- C4 witness: the amended statement evaluated on a concrete mined
block. -/
theorem c4_witness :
    mineBlock (newGenesis 0) [] 0 5 1 = some cMined ∧
    (goStartsWith cMined.Hash (goRepeatZero 0) = true ∧
     calcHash cMined = cMined.Hash ∧ validateBasic cMined = true ∧
     cMined.Index = (newGenesis 0).Index + 1 ∧ cMined.PrevHash = (newGenesis 0).Hash) :=
  ⟨by rfl, c4_mineBlock_spec (newGenesis 0) [] 0 5 1 cMined (by rfl)⟩

/-- C4 counterexample: the variant MineBlock built on ProofOfWork hashes
a different serialization (prepareData) than calcHash, so the block it
returns at difficulty 0 over genesis fails ValidateBasic, against the
claim that every MineBlock result satisfies it. -/
theorem c4_counterexample :
    (mineBlockPow (newGenesis 0) [] 0 7 1).map validateBasic = some false := by
  decide

/- ===== C6 ===== -/

/-- Sorting with sort.Strings is a function of the multiset of inputs:
permuted inputs sort to the same list. -/
theorem sortStrings_congr {l1 l2 : List String} (h : l1.Perm l2) :
    sortStrings l1 = sortStrings l2 :=
  List.eq_of_perm_of_sorted
    ((List.perm_insertionSort _ l1).trans (h.trans (List.perm_insertionSort _ l2).symm))
    (List.sorted_insertionSort _ l1) (List.sorted_insertionSort _ l2)

/-- C6 amended, proved for the sorting calcHash variant: the hash does
not depend on the stored order of the transaction ids. -/
theorem c6_calcHash_perm_invariant (b : Block) (l : List String)
    (h : l.Perm b.Transactions) :
    calcHash { b with Transactions := l } = calcHash b := by
  unfold calcHash
  have hs : sortStrings l = sortStrings b.Transactions := sortStrings_congr h
  simp only [hs]
  rfl

/-- A two-transaction block for exercising transaction order. -/
def cTxA : Block := ⟨1, 2, ["a", "b"], "p", 0, ""⟩

/-- The same block with the two transaction ids swapped. -/
def cTxB : Block := ⟨1, 2, ["b", "a"], "p", 0, ""⟩

/-- C6 counterexample: the non-sorting calcHash variant joins the ids in
stored order, so the swapped block hashes differently although its
transaction list is a permutation of the original. -/
theorem c6_counterexample :
    cTxB.Transactions.Perm cTxA.Transactions ∧ calcHashJoin cTxB ≠ calcHashJoin cTxA :=
  ⟨List.Perm.swap "a" "b" [], by decide⟩

/-- C6 witness: the amended statement evaluated on the swapped block. -/
theorem c6_witness : calcHash cTxB = calcHash cTxA :=
  c6_calcHash_perm_invariant cTxA ["b", "a"] (List.Perm.swap "a" "b" [])

/- ===== C5: the two difficulty encodings ===== -/

/-- Peeling one byte off the big-endian value. -/
theorem bytesFold_acc (t : List Nat) :
    ∀ a : Nat, t.foldl (fun x y => x * 256 + y) a
      = a * 256 ^ t.length + t.foldl (fun x y => x * 256 + y) 0 := by
  induction t with
  | nil => intro a; simp
  | cons c t ih =>
    intro a
    simp only [List.foldl_cons, List.length_cons]
    rw [ih (a * 256 + c), ih (0 * 256 + c)]
    ring

/-- bytesToNat on a cons. -/
theorem bytesToNat_cons (b : Nat) (t : List Nat) :
    bytesToNat (b :: t) = b * 256 ^ t.length + bytesToNat t := by
  unfold bytesToNat
  simp only [List.foldl_cons]
  rw [bytesFold_acc t (0 * 256 + b)]
  ring_nf

/-- A list of bytes denotes a value below 256 to the length. -/
theorem bytesToNat_lt (l : List Nat) (hb : ∀ x ∈ l, x < 256) :
    bytesToNat l < 256 ^ l.length := by
  induction l with
  | nil => simp [bytesToNat]
  | cons b t ih =>
    rw [bytesToNat_cons, List.length_cons]
    have hbb : b < 256 := hb b (by simp)
    have ht : bytesToNat t < 256 ^ t.length := ih (fun x hx => hb x (by simp [hx]))
    calc b * 256 ^ t.length + bytesToNat t
        < b * 256 ^ t.length + 256 ^ t.length := by omega
      _ = (b + 1) * 256 ^ t.length := by ring
      _ ≤ 256 * 256 ^ t.length := Nat.mul_le_mul_right _ (by omega)
      _ = 256 ^ (t.length + 1) := by ring

/-- The hex digit of a value below 16 is the zero character only for
zero. -/
theorem hexDigit_eq_zero : ∀ x < 16, (hexDigit x = '0' ↔ x = 0) := by decide

/-- Powers of 2 with byte exponents are powers of 256. -/
theorem pow256 (n : Nat) : (2 : Nat) ^ (8 * n) = 256 ^ n := by
  rw [pow_mul]
  norm_num

/-- Leading zero characters of the hex rendering against the value: the
first d hex characters of a byte list are all zero exactly when the
value, scaled by 16 to the d, still fits below 2 to the bit length. -/
theorem hexZeros_iff :
    ∀ (l : List Nat), (∀ x ∈ l, x < 256) →
    ∀ d, d ≤ 2 * l.length →
    ((List.replicate d '0').isPrefixOf (bytesHexChars l) = true ↔
      bytesToNat l * 16 ^ d < 2 ^ (8 * l.length)) := by
  intro l
  induction l with
  | nil =>
    intro _ d hd
    simp only [List.length_nil, Nat.mul_zero, Nat.le_zero] at hd
    subst hd
    simp [bytesToNat, List.isPrefixOf]
  | cons b t ih =>
    intro hb d hd
    have hbb : b < 256 := hb b (by simp)
    have hbt : ∀ x ∈ t, x < 256 := fun x hx => hb x (by simp [hx])
    have hv : bytesToNat t < 256 ^ t.length := bytesToNat_lt t hbt
    have hP : 0 < (256 : Nat) ^ t.length := pow_pos (by norm_num) _
    match d with
    | 0 =>
      simp only [List.replicate, List.isPrefixOf, pow_zero, mul_one, true_iff]
      have hall := bytesToNat_lt (b :: t) hb
      rwa [← pow256 (b :: t).length] at hall
    | 1 =>
      have hdiv : b / 16 < 16 := by omega
      simp only [List.replicate, List.isPrefixOf, bytesHexChars, Bool.and_eq_true, beq_iff_eq,
        List.length_cons, bytesToNat_cons]
      rw [pow256 (t.length + 1)]
      constructor
      · rintro ⟨h0, -⟩
        have hb16 : b < 16 := by
          have := (hexDigit_eq_zero (b / 16) hdiv).mp h0.symm
          omega
        have : (b * 256 ^ t.length + bytesToNat t) * 16 ^ 1
            ≤ (15 * 256 ^ t.length + (256 ^ t.length - 1)) * 16 := by
          have : b ≤ 15 := by omega
          have : bytesToNat t ≤ 256 ^ t.length - 1 := by omega
          nlinarith [hv]
        calc (b * 256 ^ t.length + bytesToNat t) * 16 ^ 1
            ≤ (15 * 256 ^ t.length + (256 ^ t.length - 1)) * 16 := this
          _ < 256 ^ (t.length + 1) := by
              have h1 : (256 : Nat) ^ (t.length + 1) = 256 ^ t.length * 256 := by ring
              omega
      · intro hlt
        have hb16 : b < 16 := by
          by_contra hge
          push_neg at hge
          have h1 : (256 : Nat) ^ (t.length + 1) = 256 ^ t.length * 256 := by ring
          have h2 : (b * 256 ^ t.length + bytesToNat t) * 16 ^ 1
              ≥ 16 * 256 ^ t.length * 16 := by nlinarith
          omega
        refine ⟨?_, trivial⟩
        have hz : b / 16 = 0 := by omega
        rw [hz]
        rfl
    | d' + 2 =>
      have hd' : d' ≤ 2 * t.length := by
        simp only [List.length_cons] at hd
        omega
      have hIH := ih hbt d' hd'
      simp only [List.replicate, List.isPrefixOf, bytesHexChars, Bool.and_eq_true, beq_iff_eq,
        List.length_cons, bytesToNat_cons]
      rw [pow256 (t.length + 1)]
      have hdiv : b / 16 < 16 := by omega
      have hmod : b % 16 < 16 := by omega
      rcases Nat.eq_zero_or_pos b with hb0 | hpos
      · subst hb0
        have e0 : hexDigit (0 / 16) = '0' := by decide
        have e1 : hexDigit (0 % 16) = '0' := by decide
        simp only [e0, e1, zero_mul, zero_add, true_and]
        rw [pow256 t.length] at hIH
        constructor
        · intro hpre
          have := hIH.mp hpre
          calc bytesToNat t * 16 ^ (d' + 2) = bytesToNat t * 16 ^ d' * 256 := by ring
            _ < 256 ^ t.length * 256 := by
                exact (Nat.mul_lt_mul_right (by norm_num)).mpr this
            _ = 256 ^ (t.length + 1) := by ring
        · intro hlt
          apply hIH.mpr
          have h1 : bytesToNat t * 16 ^ d' * 256 < 256 ^ t.length * 256 := by
            calc bytesToNat t * 16 ^ d' * 256 = bytesToNat t * 16 ^ (d' + 2) := by ring
              _ < 256 ^ (t.length + 1) := hlt
              _ = 256 ^ t.length * 256 := by ring
          exact Nat.lt_of_mul_lt_mul_right h1
      · constructor
        · rintro ⟨h0, h1, -⟩
          exfalso
          have hz0 : b / 16 = 0 := (hexDigit_eq_zero (b / 16) hdiv).mp h0.symm
          have hz1 : b % 16 = 0 := (hexDigit_eq_zero (b % 16) hmod).mp h1.symm
          omega
        · intro hlt
          exfalso
          have h1 : 256 ^ t.length ≤ b * 256 ^ t.length := by
            conv_lhs => rw [← one_mul (256 ^ t.length)]
            exact Nat.mul_le_mul_right _ hpos
          have h2 : (256 : Nat) ≤ 16 ^ (d' + 2) := by
            calc (256 : Nat) = 16 ^ 2 := by norm_num
              _ ≤ 16 ^ (d' + 2) := Nat.pow_le_pow_right (by norm_num) (by omega)
          have hge : 256 ^ t.length * 256
              ≤ (b * 256 ^ t.length + bytesToNat t) * 16 ^ (d' + 2) :=
            Nat.mul_le_mul (le_trans h1 (Nat.le_add_right _ _)) h2
          have h3 : (256 : Nat) ^ (t.length + 1) = 256 ^ t.length * 256 := by ring
          omega

/-- C5: for every 32-byte digest and difficulty up to 64, the
leading-zero hex test and the numeric target test of NewProofOfWork
agree; consequently the prefix check inside CheckPoW and the comparison
inside ProofOfWork.Validate accept the same digests. -/
theorem c5_difficulty_encodings_equiv (h : List Nat) (hlen : h.length = 32)
    (hb : ∀ x ∈ h, x < 256) (d : Nat) (hd : d ≤ 64) :
    (goStartsWith (hexOfBytes h) (goRepeatZero d) = true ↔ bytesToNat h < powTarget d) ∧
    (∀ b : Block, b.Hash = hexOfBytes h → validateBasic b = true →
      (checkPoW b d = true ↔ bytesToNat h < powTarget d)) ∧
    (∀ b : Block, sha256 (strBytes (prepareData b b.Nonce)) = h →
      (powValidate b d = true ↔ goStartsWith (hexOfBytes h) (goRepeatZero d) = true)) := by
  have hmul := hexZeros_iff h hb d (by omega)
  have key : (2 : Nat) ^ (8 * h.length) = powTarget d * 16 ^ d := by
    unfold powTarget
    rw [show (16 : Nat) ^ d = 2 ^ (4 * d) from by rw [pow_mul]; norm_num, ← pow_add]
    congr 1
    omega
  have main : goStartsWith (hexOfBytes h) (goRepeatZero d) = true ↔ bytesToNat h < powTarget d := by
    have hgs : goStartsWith (hexOfBytes h) (goRepeatZero d)
        = (List.replicate d '0').isPrefixOf (bytesHexChars h) := rfl
    rw [hgs, hmul, key]
    exact Nat.mul_lt_mul_right (pow_pos (by norm_num) d)
  refine ⟨main, ?_, ?_⟩
  · intro b hbh hvb
    rw [checkPoW, hvb, Bool.true_and, hbh]
    exact main
  · intro b hsh
    rw [powValidate, hsh, main]
    simp

/-- C5 witness: the equivalence evaluated at the all-zero digest and
difficulty 3. -/
theorem c5_witness :
    goStartsWith (hexOfBytes (List.replicate 32 0)) (goRepeatZero 3) = true ↔
      bytesToNat (List.replicate 32 0) < powTarget 3 :=
  (c5_difficulty_encodings_equiv (List.replicate 32 0) (by decide) (by decide) 3 (by decide)).1

end MiniChain
